import Mathlib

/-!
Verification development for the agent-core repository (Rust).

The definitions below are a shallow embedding of the code in
`src/controller.rs`, `src/agent.rs`, `src/messages.rs`, `src/error.rs` and
`src/plan.rs`.  Conventions of the embedding:

* machine integers are `Nat` with explicit `% 2 ^ 64` where the Rust code can
  wrap (`AtomicU64::fetch_add`);
* runtime-environmental values (UUIDs, `chrono` timestamps) are modelled as
  `Unit`: no claim depends on them;
* `f32` arithmetic in `PlanMessage::completion_percentage` is modelled over
  `Rat` (a single correctly-rounded division; the claims compare exact ratios);
* the engine (`codex_conversation`) is modelled as a script: a list of
  `next_event()` results consumed in order;
* channels are modelled as explicit lists of the values that cross them; in
  the scenarios of the claims the output/plan channel sends succeed;
* the execution loop (a `tokio::select!` loop) is modelled as a function of a
  schedule: a list of which select arm fired, in order.  `wait_if_paused`
  polling is modelled as a function of the sequence of control commands
  applied to the shared atomic flags while the wait is in progress (the flags
  are the only data the wait reads).  In the program the only mutator of
  those flags is `handle_control_command`, which runs on the same select
  task that blocks inside the wait, so the only realizable stream is the
  empty one; every claim about realizable behavior instantiates the stream
  with `[]`.
-/

namespace AgentCore

/-- Internal execution state of the agent (controller.rs, `ExecutionState`). -/
inductive ExecutionState where
  | Idle
  | Running
  | Paused
  | Stopped
  | Error (reason : String)
deriving DecidableEq, Repr

/-- Public execution state without internal error details
    (controller.rs, `PublicExecutionState`). -/
inductive PublicExecutionState where
  | Idle
  | Running
  | Paused
  | Stopped
  | Error
deriving DecidableEq, Repr

/-- The `From<ExecutionState> for PublicExecutionState` conversion
    (controller.rs lines 281-291). -/
def ExecutionState.toPublic : ExecutionState → PublicExecutionState
  | ExecutionState.Idle => PublicExecutionState.Idle
  | ExecutionState.Running => PublicExecutionState.Running
  | ExecutionState.Paused => PublicExecutionState.Paused
  | ExecutionState.Stopped => PublicExecutionState.Stopped
  | ExecutionState.Error _ => PublicExecutionState.Error

/-- Control commands sent to the agent (controller.rs, `ControlCommand`).
    The oneshot response slot is modelled by the result value of
    `handle_control_command`. -/
inductive ControlCommand where
  | Pause
  | Resume
  | Stop
deriving DecidableEq, Repr

/-- Main error type (error.rs, `AgentError`).  Payloads of foreign error
    types (`CodexErr`, `io::Error`, `serde_json::Error`) are modelled by
    their display string. -/
inductive AgentError where
  | Config (message : String)
  | Codex (message : String)
  | Io (message : String)
  | Json (message : String)
  | ChannelSend (message : String)
  | ChannelReceive (message : String)
  | Execution (message : String)
  | Tool (message : String)
  | Mcp (message : String)
  | Generic (message : String)
deriving DecidableEq, Repr

/-- Output error types sent via `OutputData::Error` (error.rs, `OutputError`). -/
inductive OutputError where
  | ToolExecutionFailed (tool_name : String) (error : String)
  | ModelRequestFailed (error : String)
  | ConfigurationError (error : String)
  | SandboxViolation (command : String) (reason : String)
  | PermissionDenied (operation : String) (reason : String)
  | ResourceLimitExceeded (resource : String) (limit : String)
  | General (message : String)
deriving DecidableEq, Repr

/-- The shared mutable fields of `AgentState` (controller.rs lines 18-33):
    execution state behind a mutex, and the three atomics.  The
    `control_sender` option is modelled separately (see `pauseOp` below)
    because it concerns channel liveness, not loop-visible state.
    `turn_count` is a `u64`, modelled as `Nat` with wrap-around applied at
    the single mutation site. -/
structure AgentState where
  execution_state : ExecutionState
  turn_count : Nat
  is_paused : Bool
  should_stop : Bool
deriving DecidableEq, Repr

/-- The modulus of a `u64`. -/
def u64Size : Nat := 2 ^ 64

/-- `AgentController::increment_turn_count` (controller.rs lines 181-184):
    `fetch_add(1)` on an `AtomicU64`, which wraps on overflow. -/
def increment_turn_count (s : AgentState) : AgentState :=
  { s with turn_count := (s.turn_count + 1) % u64Size }

/-- `AgentController::handle_control_command` (controller.rs lines 193-212).
    Returns the updated state together with the value sent on the command's
    oneshot response slot (always `Ok(())` in the source). -/
def handle_control_command (s : AgentState) (command : ControlCommand) :
    AgentState × Except AgentError Unit :=
  match command with
  | ControlCommand.Pause =>
    ({ s with is_paused := true, execution_state := ExecutionState.Paused },
      Except.ok ())
  | ControlCommand.Resume =>
    ({ s with is_paused := false, execution_state := ExecutionState.Running },
      Except.ok ())
  | ControlCommand.Stop =>
    ({ s with
        should_stop := true
        is_paused := false
        execution_state := ExecutionState.Stopped },
      Except.ok ())

/-- Public snapshot type returned by `AgentController::state`
    (controller.rs, `AgentExecutionState`). -/
structure AgentExecutionState where
  execution_state : PublicExecutionState
  turn_count : Nat
  is_paused : Bool
  should_stop : Bool
deriving DecidableEq, Repr

/-- `AgentController::state` (controller.rs lines 86-98): reads the guarded
    execution state and the three atomics and packages them as the public
    snapshot. -/
def stateQuery (s : AgentState) : AgentExecutionState :=
  { execution_state := s.execution_state.toPublic
    turn_count := s.turn_count
    is_paused := s.is_paused
    should_stop := s.should_stop }

/-- `AgentController::pause` (controller.rs lines 116-135) as a function of
    the channel situation: `sender_present` is whether the `control_sender`
    option still holds a sender (set by `new`, never cleared anywhere in the
    code), `receiver_alive` is whether the loop's `control_rx` end still
    exists (it is dropped when the execution loop exits), and `resp` is the
    value the loop sends on the oneshot response slot when the command is
    delivered (`none` models a dropped slot). -/
def pauseOp (sender_present receiver_alive : Bool)
    (resp : Option (Except AgentError Unit)) : Except AgentError Unit :=
  if sender_present then
    if receiver_alive then
      match resp with
      | some r => r
      | none => Except.error (AgentError.ChannelReceive "Failed to receive pause response")
    else Except.error (AgentError.ChannelSend "Failed to send pause command")
  else Except.error (AgentError.Execution "Agent controller is not active")

/-- `AgentController::resume` (controller.rs lines 138-157), modelled like
    `pauseOp`. -/
def resumeOp (sender_present receiver_alive : Bool)
    (resp : Option (Except AgentError Unit)) : Except AgentError Unit :=
  if sender_present then
    if receiver_alive then
      match resp with
      | some r => r
      | none => Except.error (AgentError.ChannelReceive "Failed to receive resume response")
    else Except.error (AgentError.ChannelSend "Failed to send resume command")
  else Except.error (AgentError.Execution "Agent controller is not active")

/-- `AgentController::stop` (controller.rs lines 160-179), modelled like
    `pauseOp`. -/
def stopOp (sender_present receiver_alive : Bool)
    (resp : Option (Except AgentError Unit)) : Except AgentError Unit :=
  if sender_present then
    if receiver_alive then
      match resp with
      | some r => r
      | none => Except.error (AgentError.ChannelReceive "Failed to receive stop response")
    else Except.error (AgentError.ChannelSend "Failed to send stop command")
  else Except.error (AgentError.Execution "Agent controller is not active")

/-- Whether `AgentController::new` (controller.rs lines 69-83) stores a
    sender in the `control_sender` option.  No code path in the repository
    ever replaces it with `None`. -/
def newSenderPresent : Bool := true

/-- `AgentController::wait_if_paused` (controller.rs lines 221-225): spin
    while `is_paused && !should_stop`, re-reading the atomic flags each poll.
    The flags are mutated only by `handle_control_command`; `cmds` is the
    sequence of commands applied to them while the wait is in progress, one
    observed per poll.  Returns `none` when the wait never terminates (the
    command supply is exhausted while still paused).  In the program
    `handle_control_command` runs only on the select task that is itself
    blocked inside this wait (agent.rs lines 237, 254), so the realizable
    stream is always `[]`: a wait entered while paused never terminates. -/
def wait_if_paused : AgentState → List ControlCommand → Option AgentState
  | s, [] =>
    if s.is_paused && !s.should_stop then none else some s
  | s, c :: rest =>
    if s.is_paused && !s.should_stop then
      wait_if_paused (handle_control_command s c).1 rest
    else some s

/-- A minimal model of `serde_json::Value`, used for tool arguments/results.
    Numbers are restricted to the integers the code actually serializes
    (exit codes, counts). -/
inductive Json where
  | null
  | bool (b : Bool)
  | num (n : Int)
  | str (s : String)
  | arr (elems : List Json)
  | obj (fields : List (String × Json))

/-- Image input data (messages.rs, `ImageInput`). -/
structure ImageInput where
  data : String
  mime_type : String
  description : Option String
deriving DecidableEq, Repr

/-- Input message from user to agent (messages.rs, `InputMessage`). -/
structure InputMessage where
  message : String
  images : List ImageInput
deriving DecidableEq, Repr

/-- Plan step status (re-exported `codex_protocol::plan_tool::StepStatus`). -/
inductive StepStatus where
  | Pending
  | InProgress
  | Completed
deriving DecidableEq, Repr

/-- A single plan item (`codex_protocol::plan_tool::PlanItemArg`). -/
structure PlanItemArg where
  step : String
  status : StepStatus
deriving DecidableEq, Repr

/-- The plan-update payload (`codex_protocol::plan_tool::UpdatePlanArgs`). -/
structure UpdatePlanArgs where
  explanation : Option String
  plan : List PlanItemArg
deriving DecidableEq, Repr

/-- Individual todo item (plan.rs, `TodoItem`).  The UUID and the `chrono`
    timestamps are environment-generated values with no bearing on any
    claim; they are modelled as `Unit`.  `estimated_hours : Option<f32>` is
    modelled over `Rat`. -/
structure TodoItem where
  id : Unit
  content : String
  status : StepStatus
  priority : Option Nat
  tags : List String
  created_at : Unit
  updated_at : Unit
  due_date : Option Unit
  estimated_hours : Option Rat
  metadata : List (String × Json)

/-- Optional metadata for plan messages (plan.rs, `PlanMetadata`). -/
structure PlanMetadata where
  name : Option String
  description : Option String
  version : Option Nat
  created_by : Option String
  tags : List String
  custom : List (String × Json)

/-- `PlanMetadata::new` (plan.rs lines 310-313): the `Default` value. -/
def PlanMetadata.new : PlanMetadata :=
  { name := none
    description := none
    version := none
    created_by := none
    tags := []
    custom := [] }

/-- Plan message sent through the plan channel (plan.rs, `PlanMessage`).
    The `chrono` timestamp is modelled as `Unit`. -/
structure PlanMessage where
  todos : List TodoItem
  metadata : Option PlanMetadata
  timestamp : Unit

/-- `TodoItem::from_plan_item_arg` (plan.rs lines 270-284). -/
def TodoItem.from_plan_item_arg (plan_item : PlanItemArg) : TodoItem :=
  { id := ()
    content := plan_item.step
    status := plan_item.status
    priority := none
    tags := []
    created_at := ()
    updated_at := ()
    due_date := none
    estimated_hours := none
    metadata := [] }

/-- `PlanMessage::from_update_plan_args` (plan.rs lines 45-62). -/
def PlanMessage.from_update_plan_args (args : UpdatePlanArgs) : PlanMessage :=
  let todos := args.plan.map TodoItem.from_plan_item_arg
  let metadata :=
    match args.explanation with
    | some explanation => { PlanMetadata.new with description := some explanation }
    | none => PlanMetadata.new
  { todos := todos
    metadata := some metadata
    timestamp := () }

/-- `PlanMessage::completed_todos` (plan.rs lines 73-79): the todos whose
    status matches `StepStatus::Completed`. -/
def PlanMessage.completed_todos (pm : PlanMessage) : List TodoItem :=
  pm.todos.filter fun todo =>
    match todo.status with
    | StepStatus.Completed => true
    | _ => false

/-- `PlanMessage::completion_percentage` (plan.rs lines 97-105): 1.0 for an
    empty todo list, otherwise completed count over total count.  The `f32`
    division is modelled as exact `Rat` division. -/
def PlanMessage.completion_percentage (pm : PlanMessage) : Rat :=
  if pm.todos.isEmpty then 1
  else (pm.completed_todos.length : Rat) / (pm.todos.length : Rat)

/-- Output data variants (messages.rs, `OutputData`). -/
inductive OutputData where
  | Start
  | Primary (content : String)
  | PrimaryDelta (content : String)
  | ToolStart (tool_name : String) (arguments : Json)
  | ToolComplete (tool_name : String) (result : Json)
  | ToolOutput (tool_name : String) (output : String)
  | Reasoning (content : String)
  | ReasoningDelta (content : String)
  | TodoUpdate (todos : List TodoItem)
  | Completed
  | Error (error : OutputError)

/-- Output message from agent to user (messages.rs, `OutputMessage`).
    The creation timestamp is modelled as `Unit`. -/
structure OutputMessage where
  turn_id : Nat
  data : OutputData
  timestamp : Unit

/-- `OutputMessage::new` (messages.rs lines 110-116). -/
def OutputMessage.new (turn_id : Nat) (data : OutputData) : OutputMessage :=
  { turn_id := turn_id
    data := data
    timestamp := () }

/-- The engine event payloads consumed by `convert_event_to_output`
    (`codex_protocol::protocol::EventMsg`), with each payload reduced to the
    fields the code reads: byte chunks are modelled by their lossy UTF-8
    string, `PatchApplyBegin.changes` (a map) by its list of keys, and
    payloads the code never inspects (token counts, session/history/tool-list
    bookkeeping, task-complete and turn-aborted details) by `Unit`.
    `Other` stands for any remaining variant hit by the final wildcard arm. -/
inductive EventMsg where
  | AgentMessage (message : String)
  | AgentMessageDelta (delta : String)
  | AgentReasoning (text : String)
  | AgentReasoningDelta (delta : String)
  | AgentReasoningRawContent (text : String)
  | AgentReasoningRawContentDelta (delta : String)
  | TaskComplete (payload : Unit)
  | TaskStarted
  | Error (message : String)
  | ExecCommandBegin (command : List String)
  | ExecCommandEnd (exit_code : Int) (call_id : String)
  | McpToolCallBegin (server : String) (tool : String) (arguments : Option Json)
  | McpToolCallEnd (server : String) (tool : String) (success : Bool) (result : Json)
  | WebSearchBegin (query : String)
  | PatchApplyBegin (changes : List String)
  | PatchApplyEnd (success : Bool)
  | ExecCommandOutputDelta (chunk : String)
  | StreamError (message : String)
  | TokenCount (payload : Unit)
  | SessionConfigured (payload : Unit)
  | ConversationHistory (payload : Unit)
  | McpListToolsResponse (payload : Unit)
  | GetHistoryEntryResponse (payload : Unit)
  | TurnAborted (payload : Unit)
  | ShutdownComplete
  | PlanUpdate (args : UpdatePlanArgs)
  | Other

/-- An engine event (`codex_protocol::protocol::Event`): submission id plus
    payload. -/
structure Event where
  id : String
  msg : EventMsg

/-- `convert_event_to_output` (agent.rs lines 419-509), arm by arm.  The
    `json!` literals are reproduced with the `Json` model; `Option` tool
    arguments serialize to `null`/value as serde does. -/
def convert_event_to_output (event : Event) : Option OutputData :=
  match event.msg with
  | EventMsg.AgentMessage message => some (OutputData.Primary message)
  | EventMsg.AgentMessageDelta delta => some (OutputData.PrimaryDelta delta)
  | EventMsg.AgentReasoning text => some (OutputData.Reasoning text)
  | EventMsg.AgentReasoningDelta delta => some (OutputData.ReasoningDelta delta)
  | EventMsg.AgentReasoningRawContent text => some (OutputData.Reasoning text)
  | EventMsg.AgentReasoningRawContentDelta delta => some (OutputData.ReasoningDelta delta)
  | EventMsg.TaskComplete _ => some OutputData.Completed
  | EventMsg.TaskStarted => some OutputData.Start
  | EventMsg.Error message => some (OutputData.Error (OutputError.General message))
  | EventMsg.ExecCommandBegin command =>
    some (OutputData.ToolStart "exec_command"
      (Json.obj [("command", Json.arr (command.map Json.str))]))
  | EventMsg.ExecCommandEnd exit_code call_id =>
    some (OutputData.ToolComplete "exec_command"
      (Json.obj [("exit_code", Json.num exit_code), ("call_id", Json.str call_id)]))
  | EventMsg.McpToolCallBegin server tool arguments =>
    some (OutputData.ToolStart tool
      (Json.obj [("server", Json.str server),
        ("arguments", match arguments with | some j => j | none => Json.null)]))
  | EventMsg.McpToolCallEnd server tool success result =>
    some (OutputData.ToolComplete tool
      (Json.obj [("server", Json.str server), ("success", Json.bool success),
        ("result", result)]))
  | EventMsg.WebSearchBegin query =>
    some (OutputData.ToolStart "web_search" (Json.obj [("query", Json.str query)]))
  | EventMsg.PatchApplyBegin changes =>
    some (OutputData.ToolStart "apply_patch"
      (Json.obj [("changes_count", Json.num changes.length)]))
  | EventMsg.PatchApplyEnd success =>
    some (OutputData.ToolComplete "apply_patch"
      (Json.obj [("success", Json.bool success),
        ("message", Json.str "Patch application finished")]))
  | EventMsg.ExecCommandOutputDelta chunk =>
    some (OutputData.ToolOutput "exec_command" chunk)
  | EventMsg.StreamError message => some (OutputData.Error (OutputError.General message))
  | EventMsg.TokenCount _ => none
  | EventMsg.SessionConfigured _ => none
  | EventMsg.ConversationHistory _ => none
  | EventMsg.McpListToolsResponse _ => none
  | EventMsg.GetHistoryEntryResponse _ => none
  | EventMsg.TurnAborted _ =>
    some (OutputData.Error (OutputError.General "Turn was aborted"))
  | EventMsg.ShutdownComplete => some OutputData.Completed
  | _ => none

/-- One input item of a submission (`codex_protocol::protocol::InputItem`). -/
inductive InputItem where
  | Text (text : String)
  | Image (image_url : String)
deriving DecidableEq, Repr

/-- A submission to the engine (`codex_protocol::protocol::Submission`).
    The random UUID id is modelled as `Unit`. -/
structure Submission where
  id : Unit
  items : List InputItem
deriving DecidableEq, Repr

/-- The submission `process_input_message` builds from an input message
    (agent.rs lines 337-353): the text item followed by one image item per
    attachment. -/
def submissionOf (input_message : InputMessage) : Submission :=
  { id := ()
    items := InputItem.Text input_message.message ::
      input_message.images.map fun image => InputItem.Image image.data }

/-- One result of `codex_conversation.next_event()`: an event, or an engine
    error carrying its display string. -/
abbrev FetchResult := Except String Event

/-- Whether an event is `EventMsg::TaskComplete`, the per-turn terminal
    check in agent.rs line 374. -/
def isTaskComplete : EventMsg → Bool
  | EventMsg.TaskComplete _ => true
  | _ => false

/-- The output messages the event loop sends for one event (agent.rs lines
    377-380): the normalized output wrapped with the current turn id, or
    nothing when the normalizer drops the event. -/
def eventOut (turn_id : Nat) (event : Event) : List OutputMessage :=
  match convert_event_to_output event with
  | some output_data => [OutputMessage.new turn_id output_data]
  | none => []

/-- The plan messages the event loop sends for one event (agent.rs lines
    383-391): a converted snapshot for a plan update, nothing otherwise. -/
def eventPlans (event : Event) : List PlanMessage :=
  match event.msg with
  | EventMsg.PlanUpdate args => [PlanMessage.from_update_plan_args args]
  | _ => []

/-- The inner event loop of `process_input_message` (agent.rs lines
    362-413), driven by the engine script.  Per iteration: break if
    `should_stop`; `wait_if_paused` (the flags cannot change during a turn —
    `handle_control_command` runs on the same task, which is busy here — so
    the wait either returns at once or never returns, the latter modelled as
    `none`); fetch the next event.  A fetch error sends one `Error` output
    and breaks; otherwise the event's outputs and plan messages are sent and
    the loop breaks after a `TaskComplete`.  An exhausted script models an
    engine that never produces the awaited event (`none`). -/
def processEvents (s : AgentState) (turn_id : Nat) :
    List FetchResult → Option (List OutputMessage × List PlanMessage)
  | [] =>
    if s.should_stop then some ([], []) else none
  | fr :: rest =>
    if s.should_stop then some ([], [])
    else if s.is_paused then none
    else
      match fr with
      | Except.error e =>
        some ([OutputMessage.new turn_id (OutputData.Error (OutputError.General e))], [])
      | Except.ok event =>
        let outs := eventOut turn_id event
        let plans := eventPlans event
        if isTaskComplete event.msg then some (outs, plans)
        else
          match processEvents s turn_id rest with
          | none => none
          | some (os, ps) => some (outs ++ os, plans ++ ps)

/-- What one processed turn produced. -/
structure TurnResult where
  state : AgentState
  outputs : List OutputMessage
  plans : List PlanMessage
  submissions : List Submission

/-- `process_input_message` (agent.rs lines 323-416) in the modelled
    environment where output/plan channel sends succeed: increment the turn
    count, emit `Start` under the new turn id, forward the submission to the
    engine, then run the inner event loop on the engine script.  `none`
    models a diverging turn (engine never terminates it). -/
def process_input_message (s : AgentState) (input_message : InputMessage)
    (engine : List FetchResult) : Option TurnResult :=
  let s1 := increment_turn_count s
  let turn_id := s1.turn_count
  match processEvents s1 turn_id engine with
  | none => none
  | some (os, ps) =>
    some { state := s1
           outputs := OutputMessage.new turn_id OutputData.Start :: os
           plans := ps
           submissions := [submissionOf input_message] }

/-- What the input arm of the select loop produced. -/
structure BranchResult where
  state : AgentState
  outputs : List OutputMessage
  plans : List PlanMessage
  submissions : List Submission
  exit_loop : Bool

/-- The `input_message = context.input_rx.recv()`, `Ok(message)` arm of the
    execution loop (agent.rs lines 250-283): wait while paused (`wait_cmds`
    being the commands applied to the flags during the wait), then exit the
    loop without forwarding if a stop was requested, otherwise process the
    turn.  `none` models divergence (paused forever, or a non-terminating
    engine).  In any real run `wait_cmds = []` (see `wait_if_paused`), so an
    input arriving while paused is a livelock, `none`. -/
def inputBranch (s : AgentState) (input_message : InputMessage)
    (wait_cmds : List ControlCommand) (engine : List FetchResult) :
    Option BranchResult :=
  match wait_if_paused s wait_cmds with
  | none => none
  | some s1 =>
    if s1.should_stop then
      some { state := s1, outputs := [], plans := [], submissions := [], exit_loop := true }
    else
      match process_input_message s1 input_message engine with
      | none => none
      | some tr =>
        some { state := tr.state
               outputs := tr.outputs
               plans := tr.plans
               submissions := tr.submissions
               exit_loop := false }

/-- Which arm of the `tokio::select!` in `execution_loop` fired, in order.
    `control none` / `inputMsg none` model the respective channel having
    closed.  An input arrival carries the commands applied to the flags
    during any pause wait, and the engine script for the turn. -/
inductive LoopStep where
  | control (cmd : Option ControlCommand)
  | inputMsg (arrival : Option (InputMessage × List ControlCommand × List FetchResult))
  | tick

/-- The overall result of running the loop body over a schedule. -/
structure LoopResult where
  state : AgentState
  outputs : List OutputMessage
  plans : List PlanMessage
  exited : Bool

/-- The body of `execution_loop` (agent.rs lines 230-299) over a finite
    schedule of select-arm firings.  A control command is applied and the
    loop breaks if `should_stop` is then set, or if either channel reports
    closed; a tick is a no-op; an input arrival runs `inputBranch`.
    `exited = false` means the schedule ran out with the loop still live. -/
def executionLoopAux : AgentState → List LoopStep → Option LoopResult
  | s, [] => some { state := s, outputs := [], plans := [], exited := false }
  | s, step :: rest =>
    match step with
    | LoopStep.control none =>
      some { state := s, outputs := [], plans := [], exited := true }
    | LoopStep.control (some c) =>
      let s1 := (handle_control_command s c).1
      if s1.should_stop then
        some { state := s1, outputs := [], plans := [], exited := true }
      else executionLoopAux s1 rest
    | LoopStep.tick => executionLoopAux s rest
    | LoopStep.inputMsg none =>
      some { state := s, outputs := [], plans := [], exited := true }
    | LoopStep.inputMsg (some (input_message, wait_cmds, engine)) =>
      match inputBranch s input_message wait_cmds engine with
      | none => none
      | some br =>
        if br.exit_loop then
          some { state := br.state, outputs := br.outputs, plans := br.plans, exited := true }
        else
          match executionLoopAux br.state rest with
          | none => none
          | some r =>
            some { state := r.state
                   outputs := br.outputs ++ r.outputs
                   plans := br.plans ++ r.plans
                   exited := r.exited }

/-- `execution_loop` including its exit epilogue (agent.rs lines 301-319):
    when the loop body exits, one final `Completed` output is sent
    (best-effort) under the current turn count, and unless a stop was
    requested the execution state is set back to `Idle`. -/
def execution_loop (s : AgentState) (steps : List LoopStep) : Option LoopResult :=
  match executionLoopAux s steps with
  | none => none
  | some r =>
    if r.exited then
      some { state :=
               if !r.state.should_stop then
                 { r.state with execution_state := ExecutionState.Idle }
               else r.state
             outputs := r.outputs ++ [OutputMessage.new r.state.turn_count OutputData.Completed]
             plans := r.plans
             exited := true }
    else some r

/-- The controller state right after `Agent::execute` spawned the loop for a
    fresh agent: `new` initialises the counter and flags (controller.rs lines
    72-78) and `execute` sets the execution state to `Running` (agent.rs
    lines 137-139). -/
def initialRunningState : AgentState :=
  { execution_state := ExecutionState.Running
    turn_count := 0
    is_paused := false
    should_stop := false }

/-- A non-paused, non-stopped controller state with the given execution
    state and turn count. -/
def runningState (es : ExecutionState) (t : Nat) : AgentState :=
  { execution_state := es
    turn_count := t
    is_paused := false
    should_stop := false }

/-- A schedule step delivering one input with no interleaved control
    activity. -/
def mkInputStep (p : InputMessage × List FetchResult) : LoopStep :=
  LoopStep.inputMsg (some (p.1, [], p.2))

/-- Whether an engine script drives the inner event loop to completion: it
    reaches a fetch error or a `TaskComplete` event. -/
def scriptCompletes : List FetchResult → Bool
  | [] => false
  | Except.error _ :: _ => true
  | Except.ok event :: rest => isTaskComplete event.msg || scriptCompletes rest

/-- Whether an output message is an `Error` variant. -/
def isErrorOutput (o : OutputMessage) : Bool :=
  match o.data with
  | OutputData.Error _ => true
  | _ => false

/-- A sample input message. -/
def sampleInput : InputMessage :=
  { message := "hello", images := [] }

/-- A second sample input message. -/
def sampleInputB : InputMessage :=
  { message := "again", images := [] }

/-- A concrete two-input run: each turn's engine script ends in
    `TaskComplete`. -/
def c1Inputs : List (InputMessage × List FetchResult) :=
  [(sampleInput,
     [Except.ok { id := "e1", msg := EventMsg.AgentMessage "hi there" },
      Except.ok { id := "e2", msg := EventMsg.TaskComplete () }]),
   (sampleInputB,
     [Except.ok { id := "e3", msg := EventMsg.TaskComplete () }])]

/-- A controller state that has acknowledged a pause. -/
def pausedState : AgentState :=
  { execution_state := ExecutionState.Paused
    turn_count := 0
    is_paused := true
    should_stop := false }

/-- A concrete todo with the given status. -/
def mkTodo (content : String) (status : StepStatus) : TodoItem :=
  TodoItem.from_plan_item_arg { step := content, status := status }

/-- A plan of exactly 3 todos with statuses Completed, Completed, Pending. -/
def threeTodoPlan : PlanMessage :=
  { todos := [mkTodo "a" StepStatus.Completed, mkTodo "b" StepStatus.Completed,
      mkTodo "c" StepStatus.Pending]
    metadata := none
    timestamp := () }

/-- A plan with an empty todo list. -/
def emptyPlan : PlanMessage :=
  { todos := [], metadata := none, timestamp := () }

/-- A concrete plan-update payload. -/
def samplePlanArgs : UpdatePlanArgs :=
  { explanation := some "reprioritized"
    plan := [{ step := "first", status := StepStatus.Completed },
      { step := "second", status := StepStatus.InProgress }] }

/-- The loop result of a run that exits because the control channel closed
    before any input: one final `Completed` under turn count 0, state back
    to `Idle`. -/
def c5Result : LoopResult :=
  { state := runningState ExecutionState.Idle 0
    outputs := [OutputMessage.new 0 OutputData.Completed]
    plans := []
    exited := true }

/-- A concrete event prefix for a turn that then hits a fetch error. -/
def c6Pre : List Event :=
  [{ id := "e1", msg := EventMsg.AgentMessageDelta "partial" }]

/-- Events sitting behind a fetch error; the turn must never reach them. -/
def c6Junk : List FetchResult :=
  [Except.ok { id := "zz", msg := EventMsg.TaskStarted }]

/-- A concrete script tail ending the turn after a plan update. -/
def c8Rest : List FetchResult :=
  [Except.ok { id := "t1", msg := EventMsg.TaskComplete () }]

end AgentCore

namespace AgentCore

/-- When the wait guard is false on entry, `wait_if_paused` returns the
    state unchanged without consuming any command. -/
theorem wait_if_paused_not_waiting (s : AgentState) (cmds : List ControlCommand)
    (h : (s.is_paused && !s.should_stop) = false) :
    wait_if_paused s cmds = some s := by
  cases cmds <;> simp [wait_if_paused, h]

/-- The pause wait preserves the invariant that a set stop flag comes with
    the `Stopped` execution state: commands are only applied while the stop
    flag is clear, and the stop command itself establishes the invariant. -/
theorem wait_if_paused_stop_inv (cmds : List ControlCommand) :
    ∀ s s' : AgentState,
      (s.should_stop = true → s.execution_state = ExecutionState.Stopped) →
      wait_if_paused s cmds = some s' →
      (s'.should_stop = true → s'.execution_state = ExecutionState.Stopped) := by
  induction cmds with
  | nil =>
    intro s s' hinv h
    by_cases hg : (s.is_paused && !s.should_stop) = true
    · simp [wait_if_paused, hg] at h
    · rw [Bool.not_eq_true] at hg
      rw [wait_if_paused_not_waiting s [] hg, Option.some_inj] at h
      subst h
      exact hinv
  | cons c rest ih =>
    intro s s' hinv h
    by_cases hg : (s.is_paused && !s.should_stop) = true
    · rw [wait_if_paused, if_pos hg] at h
      have hstop : s.should_stop = false := by
        have := (Bool.and_eq_true _ _).mp hg
        simpa using this.2
      refine ih _ _ ?_ h
      cases c with
      | Pause => intro hc; rw [handle_control_command] at hc; simp [hstop] at hc
      | Resume => intro hc; rw [handle_control_command] at hc; simp [hstop] at hc
      | Stop => intro _; rfl
    · rw [Bool.not_eq_true] at hg
      rw [wait_if_paused_not_waiting s (c :: rest) hg, Option.some_inj] at h
      subst h
      exact hinv

/-- C2 (code bug): the atomic flags that `wait_if_paused` polls are mutated
    only by `handle_control_command`, whose sole call site (agent.rs line
    237) is the control arm of the very select task that blocks inside the
    wait on a pending input (agent.rs line 254).  The command stream applied
    during that wait is therefore always empty in any real run: once a pause
    has been acknowledged before an input arrives, the wait never
    terminates.  The pending input is indeed never forwarded to the engine,
    but not for the claimed reason — the loop livelocks: a resume can never
    clear the flag, a stop can never be applied, and the loop never exits.
    Formally, on the realizable (empty) command stream: the wait from the
    paused state diverges, the input arm diverges for every engine script
    and message, and a whole run that pauses and then receives an input
    diverges no matter what the schedule holds afterwards. -/
theorem pause_before_input_livelocks (input_message : InputMessage)
    (engine : List FetchResult) (rest : List LoopStep) :
    wait_if_paused pausedState [] = none ∧
    inputBranch pausedState input_message [] engine = none ∧
    executionLoopAux initialRunningState
      (LoopStep.control (some ControlCommand.Pause) ::
        LoopStep.inputMsg (some (input_message, [], engine)) :: rest) = none :=
  ⟨rfl, rfl, rfl⟩

/-- Every output the event loop sends for one event is tagged with the
    turn id it was given. -/
theorem eventOut_turn_id (turn_id : Nat) (event : Event) :
    ∀ o ∈ eventOut turn_id event, o.turn_id = turn_id := by
  intro o ho
  unfold eventOut at ho
  cases hconv : convert_event_to_output event with
  | none => rw [hconv] at ho; cases ho
  | some d =>
    rw [hconv] at ho
    rcases List.mem_singleton.mp ho with rfl
    rfl

/-- Every output produced by the inner event loop is tagged with the turn
    id it runs under. -/
theorem processEvents_turn_ids (frs : List FetchResult) :
    ∀ (s : AgentState) (turn_id : Nat) (os : List OutputMessage) (ps : List PlanMessage),
      processEvents s turn_id frs = some (os, ps) → ∀ o ∈ os, o.turn_id = turn_id := by
  induction frs with
  | nil =>
    intro s tid os ps h o ho
    cases hs : s.should_stop with
    | true =>
      simp [processEvents, hs] at h
      rw [h.1] at ho
      cases ho
    | false => simp [processEvents, hs] at h
  | cons fr rest ih =>
    intro s tid os ps h o ho
    cases hs : s.should_stop with
    | true =>
      simp [processEvents, hs] at h
      rw [h.1] at ho
      cases ho
    | false =>
      cases hp : s.is_paused with
      | true => simp [processEvents, hs, hp] at h
      | false =>
        cases fr with
        | error e =>
          simp [processEvents, hs, hp] at h
          rw [← h.1] at ho
          rcases List.mem_singleton.mp ho with rfl
          rfl
        | ok event =>
          cases hT : isTaskComplete event.msg with
          | true =>
            simp [processEvents, hs, hp, hT] at h
            rw [← h.1] at ho
            exact eventOut_turn_id tid event o ho
          | false =>
            simp only [processEvents, hs, hp, hT, Bool.false_eq_true, if_false] at h
            cases hrec : processEvents s tid rest with
            | none => rw [hrec] at h; exact Option.noConfusion h
            | some r =>
              obtain ⟨os', ps'⟩ := r
              rw [hrec] at h
              dsimp only at h
              rw [Option.some_inj, Prod.mk.injEq] at h
              rw [← h.1] at ho
              rcases List.mem_append.mp ho with hl | hr
              · exact eventOut_turn_id tid event o hl
              · exact ih s tid os' ps' hrec o hr

/-- A script that reaches a fetch error or a task-complete event drives the
    inner event loop to a result when the run is neither stopped nor
    paused. -/
theorem processEvents_completes (frs : List FetchResult) :
    ∀ (s : AgentState) (turn_id : Nat),
      s.should_stop = false → s.is_paused = false → scriptCompletes frs = true →
      ∃ os ps, processEvents s turn_id frs = some (os, ps) := by
  induction frs with
  | nil => intro s tid _ _ hc; simp [scriptCompletes] at hc
  | cons fr rest ih =>
    intro s tid h1 h2 hc
    cases fr with
    | error e =>
      exact ⟨[OutputMessage.new tid (OutputData.Error (OutputError.General e))], [],
        by simp [processEvents, h1, h2]⟩
    | ok event =>
      rw [scriptCompletes] at hc
      cases hT : isTaskComplete event.msg with
      | true =>
        exact ⟨eventOut tid event, eventPlans event, by simp [processEvents, h1, h2, hT]⟩
      | false =>
        rw [hT, Bool.false_or] at hc
        obtain ⟨os, ps, hrec⟩ := ih s tid h1 h2 hc
        exact ⟨eventOut tid event ++ os, eventPlans event ++ ps,
          by simp [processEvents, h1, h2, hT, hrec]⟩

/-- One processed turn: increments the turn count once, forwards exactly one
    submission, and tags every output (including the leading `Start`) with
    the new turn count. -/
theorem process_input_message_spec (s : AgentState) (input_message : InputMessage)
    (engine : List FetchResult) (h1 : s.should_stop = false) (h2 : s.is_paused = false)
    (hc : scriptCompletes engine = true) :
    ∃ tr : TurnResult, process_input_message s input_message engine = some tr ∧
      tr.state = increment_turn_count s ∧
      tr.submissions = [submissionOf input_message] ∧
      ∀ o ∈ tr.outputs, o.turn_id = (increment_turn_count s).turn_count := by
  have h1' : (increment_turn_count s).should_stop = false := h1
  have h2' : (increment_turn_count s).is_paused = false := h2
  obtain ⟨os, ps, hpe⟩ := processEvents_completes engine (increment_turn_count s)
    (increment_turn_count s).turn_count h1' h2' hc
  refine ⟨{ state := increment_turn_count s
            outputs := OutputMessage.new (increment_turn_count s).turn_count OutputData.Start :: os
            plans := ps
            submissions := [submissionOf input_message] }, ?_, rfl, rfl, ?_⟩
  · unfold process_input_message
    dsimp only
    rw [hpe]
  · intro o ho
    rcases List.mem_cons.mp ho with rfl | ho'
    · rfl
    · exact processEvents_turn_ids engine _ _ os ps hpe o ho'

/-- The input arm from a ready (non-paused, non-stopped) state with an
    empty wait: the turn is processed and the loop continues. -/
theorem inputBranch_ready (s : AgentState) (input_message : InputMessage)
    (engine : List FetchResult) (tr : TurnResult)
    (h1 : s.should_stop = false) (h2 : s.is_paused = false)
    (hpm : process_input_message s input_message engine = some tr) :
    inputBranch s input_message [] engine =
      some
        { state := tr.state
          outputs := tr.outputs
          plans := tr.plans
          submissions := tr.submissions
          exit_loop := false } := by
  unfold inputBranch
  rw [wait_if_paused_not_waiting s [] (by rw [h2]; rfl)]
  dsimp only
  rw [if_neg (by simp [h1])]
  rw [hpm]

/-- Running the loop body over a schedule of N inputs with no interleaved
    control activity, from a non-paused non-stopped state with turn count
    `t`: every input is accepted, the turn count rises by exactly one per
    input, and the k-th turn's outputs are exactly the k-th chunk, each
    tagged `t + k`. -/
theorem loop_inputs_run (inputs : List (InputMessage × List FetchResult)) :
    ∀ (es : ExecutionState) (t : Nat),
      t + inputs.length < u64Size →
      (∀ p ∈ inputs, scriptCompletes p.2 = true) →
      ∃ (outs : List OutputMessage) (plans : List PlanMessage)
        (chunks : List (List OutputMessage)),
        executionLoopAux (runningState es t) (inputs.map mkInputStep) =
          some { state := runningState es (t + inputs.length)
                 outputs := outs
                 plans := plans
                 exited := false } ∧
        outs = chunks.flatten ∧
        chunks.length = inputs.length ∧
        ∀ (k : Nat) (hk : k < chunks.length), ∀ o ∈ chunks.get ⟨k, hk⟩,
          o.turn_id = t + (k + 1) := by
  induction inputs with
  | nil =>
    intro es t _ _
    refine ⟨[], [], [], ?_, rfl, rfl, ?_⟩
    · simp [executionLoopAux]
    · intro k hk
      exact absurd hk (by simp)
  | cons p rest ih =>
    intro es t hlt hok
    obtain ⟨m, scr⟩ := p
    have hok_head : scriptCompletes scr = true := hok (m, scr) (List.mem_cons_self _ _)
    have hok_rest : ∀ q ∈ rest, scriptCompletes q.2 = true :=
      fun q hq => hok q (List.mem_cons_of_mem _ hq)
    have hlen : ((m, scr) :: rest).length = rest.length + 1 := rfl
    have hmod : (t + 1) % u64Size = t + 1 := by
      apply Nat.mod_eq_of_lt
      rw [hlen] at hlt
      omega
    obtain ⟨tr, hpm, htr, _, hids⟩ := process_input_message_spec
      (runningState es t) m scr rfl rfl hok_head
    have hstate : tr.state = runningState es (t + 1) := by
      rw [htr]
      simp [increment_turn_count, runningState, hmod]
    have hlt' : (t + 1) + rest.length < u64Size := by
      rw [hlen] at hlt
      omega
    obtain ⟨outs', plans', chunks', haux, hjoin, hclen, hids'⟩ := ih es (t + 1) hlt' hok_rest
    have hib : inputBranch (runningState es t) m [] scr =
        some
          { state := tr.state
            outputs := tr.outputs
            plans := tr.plans
            submissions := tr.submissions
            exit_loop := false } :=
      inputBranch_ready (runningState es t) m scr tr rfl rfl hpm
    refine ⟨tr.outputs ++ outs', tr.plans ++ plans', tr.outputs :: chunks', ?_, ?_, ?_, ?_⟩
    · rw [List.map_cons]
      rw [executionLoopAux.eq_def]
      dsimp only [mkInputStep]
      rw [hib]
      dsimp only
      rw [hstate, haux]
      dsimp only
      have harith : (t + 1) + rest.length = t + ((m, scr) :: rest).length := by
        rw [hlen]; omega
      rw [harith]
      rw [if_neg Bool.false_ne_true]
    · rw [hjoin]; rfl
    · rw [List.length_cons, hclen, hlen]
    · intro k hk o ho
      cases k with
      | zero =>
        have h0 : o.turn_id =
            (increment_turn_count (runningState es t)).turn_count := hids o ho
        rw [h0]
        unfold increment_turn_count
        exact hmod
      | succ k' =>
        have hk' : k' < chunks'.length := by
          simpa using Nat.lt_of_succ_lt_succ (by simpa using hk)
        have := hids' k' hk' o ho
        rw [this]
        omega

/-- C1: for every sequence of N input messages processed without an
    interleaved stop, every input is accepted and increments the turn count
    exactly once — `turn_count` after processing equals N — and every output
    emitted during turn k carries `turn_id = k`, matching send order; control
    commands never change the turn count (it is never decremented or reset). -/
theorem turn_count_equals_inputs (inputs : List (InputMessage × List FetchResult))
    (hlen : inputs.length < u64Size)
    (hscripts : ∀ p ∈ inputs, scriptCompletes p.2 = true) :
    ∃ (outs : List OutputMessage) (plans : List PlanMessage)
      (chunks : List (List OutputMessage)),
      executionLoopAux initialRunningState (inputs.map mkInputStep) =
        some { state := runningState ExecutionState.Running inputs.length
               outputs := outs
               plans := plans
               exited := false } ∧
      outs = chunks.flatten ∧
      chunks.length = inputs.length ∧
      (∀ (k : Nat) (hk : k < chunks.length), ∀ o ∈ chunks.get ⟨k, hk⟩,
        o.turn_id = k + 1) ∧
      (∀ (c : ControlCommand) (u : AgentState),
        ((handle_control_command u c).1).turn_count = u.turn_count) := by
  obtain ⟨outs, plans, chunks, haux, hjoin, hclen, hids⟩ :=
    loop_inputs_run inputs ExecutionState.Running 0 (by simpa using hlen) hscripts
  refine ⟨outs, plans, chunks, ?_, hjoin, hclen, ?_, ?_⟩
  · rw [Nat.zero_add] at haux
    exact haux
  · intro k hk o ho
    simpa using hids k hk o ho
  · intro c u
    cases c <;> rfl

/-- C1 witness: a concrete two-input run satisfying the hypotheses. -/
theorem turn_count_equals_inputs_witness :
    c1Inputs.length < u64Size ∧
    (∀ p ∈ c1Inputs, scriptCompletes p.2 = true) ∧
    ∃ (outs : List OutputMessage) (plans : List PlanMessage)
      (chunks : List (List OutputMessage)),
      executionLoopAux initialRunningState (c1Inputs.map mkInputStep) =
        some { state := runningState ExecutionState.Running c1Inputs.length
               outputs := outs
               plans := plans
               exited := false } ∧
      outs = chunks.flatten ∧
      chunks.length = c1Inputs.length ∧
      (∀ (k : Nat) (hk : k < chunks.length), ∀ o ∈ chunks.get ⟨k, hk⟩,
        o.turn_id = k + 1) ∧
      (∀ (c : ControlCommand) (u : AgentState),
        ((handle_control_command u c).1).turn_count = u.turn_count) :=
  ⟨by decide, by decide, turn_count_equals_inputs c1Inputs (by decide) (by decide)⟩

/-- C3: control commands are idempotent in their observable effect on the
    controller state: `handle_control_command` applied twice with `Stop`
    responds `Ok(())` both times and leaves the state `Stopped` with
    `is_paused` forced false and `should_stop` true; a second `Pause` also
    responds `Ok(())` and leaves `is_paused = true` and the state `Paused`. -/
theorem control_commands_idempotent (s : AgentState) :
    (handle_control_command s ControlCommand.Stop).2 = Except.ok () ∧
    (handle_control_command (handle_control_command s ControlCommand.Stop).1
        ControlCommand.Stop).2 = Except.ok () ∧
    (handle_control_command (handle_control_command s ControlCommand.Stop).1
        ControlCommand.Stop).1.execution_state = ExecutionState.Stopped ∧
    (handle_control_command (handle_control_command s ControlCommand.Stop).1
        ControlCommand.Stop).1.is_paused = false ∧
    (handle_control_command (handle_control_command s ControlCommand.Stop).1
        ControlCommand.Stop).1.should_stop = true ∧
    (handle_control_command s ControlCommand.Pause).2 = Except.ok () ∧
    (handle_control_command (handle_control_command s ControlCommand.Pause).1
        ControlCommand.Pause).2 = Except.ok () ∧
    (handle_control_command (handle_control_command s ControlCommand.Pause).1
        ControlCommand.Pause).1.is_paused = true ∧
    (handle_control_command (handle_control_command s ControlCommand.Pause).1
        ControlCommand.Pause).1.execution_state = ExecutionState.Paused :=
  ⟨rfl, rfl, rfl, rfl, rfl, rfl, rfl, rfl, rfl⟩

/-- C4 counterexample: with the sender present (as `new` leaves it — no code
    path ever clears it) and the loop exited (receiver gone), `pause()`
    returns the channel-send error, not the "Agent controller is not active"
    execution error the claim asserts. -/
theorem controller_not_active_counterexample :
    pauseOp newSenderPresent false none =
      Except.error (AgentError.ChannelSend "Failed to send pause command") ∧
    pauseOp newSenderPresent false none ≠
      Except.error (AgentError.Execution "Agent controller is not active") := by
  refine ⟨rfl, ?_⟩
  simp [pauseOp, newSenderPresent]

/-- C4 amended: after the execution loop has exited, the send of any control
    command fails and the operation reports a channel-send failure
    ("Failed to send pause/resume/stop command"); the
    "Agent controller is not active" error would require the sender option
    to be `None`, which never occurs. -/
theorem loop_exit_reports_channel_send_error
    (resp : Option (Except AgentError Unit)) :
    pauseOp newSenderPresent false resp =
      Except.error (AgentError.ChannelSend "Failed to send pause command") ∧
    resumeOp newSenderPresent false resp =
      Except.error (AgentError.ChannelSend "Failed to send resume command") ∧
    stopOp newSenderPresent false resp =
      Except.error (AgentError.ChannelSend "Failed to send stop command") ∧
    pauseOp newSenderPresent false resp ≠
      Except.error (AgentError.Execution "Agent controller is not active") ∧
    resumeOp newSenderPresent false resp ≠
      Except.error (AgentError.Execution "Agent controller is not active") ∧
    stopOp newSenderPresent false resp ≠
      Except.error (AgentError.Execution "Agent controller is not active") := by
  refine ⟨rfl, rfl, rfl, ?_, ?_, ?_⟩ <;>
    simp [pauseOp, resumeOp, stopOp, newSenderPresent]

/-- C7: the event normalizer maps session configuration, raw conversation
    history, history-entry responses, tool-list responses and token
    accounting to no output, so no output message is emitted for those event
    kinds. -/
theorem internal_events_not_emitted (id : String) (p : Unit) (turn_id : Nat) :
    convert_event_to_output { id := id, msg := EventMsg.SessionConfigured p } = none ∧
    convert_event_to_output { id := id, msg := EventMsg.ConversationHistory p } = none ∧
    convert_event_to_output { id := id, msg := EventMsg.GetHistoryEntryResponse p } = none ∧
    convert_event_to_output { id := id, msg := EventMsg.McpListToolsResponse p } = none ∧
    convert_event_to_output { id := id, msg := EventMsg.TokenCount p } = none ∧
    eventOut turn_id { id := id, msg := EventMsg.SessionConfigured p } = [] ∧
    eventOut turn_id { id := id, msg := EventMsg.ConversationHistory p } = [] ∧
    eventOut turn_id { id := id, msg := EventMsg.GetHistoryEntryResponse p } = [] ∧
    eventOut turn_id { id := id, msg := EventMsg.McpListToolsResponse p } = [] ∧
    eventOut turn_id { id := id, msg := EventMsg.TokenCount p } = [] :=
  ⟨rfl, rfl, rfl, rfl, rfl, rfl, rfl, rfl, rfl, rfl⟩

/-- C10: the public state snapshot never reveals the internal error reason:
    `Error(r1)` and `Error(r2)` convert to the same payload-free public
    `Error`, so two controller states differing only in the reason string
    produce identical public snapshots. -/
theorem public_state_hides_error_reason (r1 r2 : String) (tc : Nat) (ip ss : Bool) :
    ExecutionState.toPublic (ExecutionState.Error r1) =
      ExecutionState.toPublic (ExecutionState.Error r2) ∧
    ExecutionState.toPublic (ExecutionState.Error r1) = PublicExecutionState.Error ∧
    stateQuery
        { execution_state := ExecutionState.Error r1
          turn_count := tc
          is_paused := ip
          should_stop := ss } =
      stateQuery
        { execution_state := ExecutionState.Error r2
          turn_count := tc
          is_paused := ip
          should_stop := ss } :=
  ⟨rfl, rfl, rfl⟩

/-- C9: completion percentage is the number of Completed todos over the
    total: the concrete 3-todo plan with statuses Completed, Completed,
    Pending reports 2/3, the empty plan reports 1, and in general a
    non-empty plan reports the Completed count divided by the total count. -/
theorem completion_percentage_spec :
    threeTodoPlan.completion_percentage = 2 / 3 ∧
    emptyPlan.completion_percentage = 1 ∧
    ∀ pm : PlanMessage, pm.todos ≠ [] →
      pm.completion_percentage =
        ((pm.todos.countP fun todo => todo.status == StepStatus.Completed : Nat) : Rat) /
          (pm.todos.length : Rat) := by
  refine ⟨?_, ?_, ?_⟩
  · norm_num [PlanMessage.completion_percentage, PlanMessage.completed_todos,
      threeTodoPlan, mkTodo, TodoItem.from_plan_item_arg, List.filter]
  · norm_num [PlanMessage.completion_percentage, emptyPlan]
  intro pm hne
  have hempty : pm.todos.isEmpty = false := by
    cases h : pm.todos with
    | nil => exact absurd h hne
    | cons a l => rfl
  have hfilter :
      (pm.todos.filter fun todo =>
        match todo.status with
        | StepStatus.Completed => true
        | _ => false) =
      pm.todos.filter fun todo => todo.status == StepStatus.Completed := by
    apply List.filter_congr
    intro todo _
    cases todo.status <;> rfl
  rw [PlanMessage.completion_percentage, hempty]
  simp only [Bool.false_eq_true, if_false]
  rw [PlanMessage.completed_todos, hfilter, List.countP_eq_length_filter]

/-- C9 witness: the hypothesis of the general clause discharged at the
    concrete 3-todo plan. -/
theorem completion_percentage_spec_witness :
    threeTodoPlan.todos ≠ [] ∧
    threeTodoPlan.completion_percentage =
      ((threeTodoPlan.todos.countP fun todo =>
          todo.status == StepStatus.Completed : Nat) : Rat) /
        (threeTodoPlan.todos.length : Rat) :=
  ⟨by simp [threeTodoPlan],
    completion_percentage_spec.2.2 threeTodoPlan (by simp [threeTodoPlan])⟩

/-- The state recorded in a turn result is the incremented input state. -/
theorem process_input_message_state (s : AgentState) (input_message : InputMessage)
    (engine : List FetchResult) (tr : TurnResult)
    (h : process_input_message s input_message engine = some tr) :
    tr.state = increment_turn_count s := by
  unfold process_input_message at h
  dsimp only at h
  cases hpe : processEvents (increment_turn_count s)
      (increment_turn_count s).turn_count engine with
  | none => rw [hpe] at h; exact Option.noConfusion h
  | some r =>
    obtain ⟨os, ps⟩ := r
    rw [hpe] at h
    dsimp only at h
    rw [Option.some_inj] at h
    rw [← h]

/-- From a not-stopped state the input arm either exits because a stop was
    applied during the wait — leaving the `Stopped` state — or processes the
    turn and continues with the stop flag still clear. -/
theorem inputBranch_inv (s : AgentState) (input_message : InputMessage)
    (wait_cmds : List ControlCommand) (engine : List FetchResult) (br : BranchResult)
    (hs : s.should_stop = false)
    (h : inputBranch s input_message wait_cmds engine = some br) :
    (br.exit_loop = true ∧ br.state.should_stop = true ∧
      br.state.execution_state = ExecutionState.Stopped) ∨
    (br.exit_loop = false ∧ br.state.should_stop = false) := by
  unfold inputBranch at h
  cases hw : wait_if_paused s wait_cmds with
  | none => rw [hw] at h; exact Option.noConfusion h
  | some s1 =>
    rw [hw] at h
    dsimp only at h
    cases hstop : s1.should_stop with
    | true =>
      rw [if_pos hstop, Option.some_inj] at h
      subst h
      left
      refine ⟨rfl, hstop, ?_⟩
      refine wait_if_paused_stop_inv wait_cmds s s1 ?_ hw hstop
      intro hc
      rw [hs] at hc
      cases hc
    | false =>
      rw [if_neg (by simp [hstop])] at h
      cases hpm : process_input_message s1 input_message engine with
      | none => rw [hpm] at h; exact Option.noConfusion h
      | some tr =>
        rw [hpm] at h
        dsimp only at h
        rw [Option.some_inj] at h
        subst h
        right
        refine ⟨rfl, ?_⟩
        have htr := process_input_message_state s1 input_message engine tr hpm
        rw [htr]
        exact hstop

/-- Along any run of the loop body from a not-stopped state, a set stop
    flag in the result comes with the `Stopped` execution state and an
    exited loop. -/
theorem executionLoopAux_stop_inv (steps : List LoopStep) :
    ∀ (s : AgentState) (r : LoopResult), s.should_stop = false →
      executionLoopAux s steps = some r →
      (r.state.should_stop = true →
        r.state.execution_state = ExecutionState.Stopped ∧ r.exited = true) := by
  induction steps with
  | nil =>
    intro s r hs h
    simp only [executionLoopAux] at h
    rw [Option.some_inj] at h
    subst h
    intro habs
    simp [hs] at habs
  | cons step rest ih =>
    intro s r hs h
    rw [executionLoopAux.eq_def] at h
    cases step with
    | control cmd =>
      cases cmd with
      | none =>
        dsimp only at h
        rw [Option.some_inj] at h
        subst h
        intro habs
        simp [hs] at habs
      | some c =>
        dsimp only at h
        cases c with
        | Pause =>
          rw [if_neg (by simp [handle_control_command, hs])] at h
          exact ih _ r (by simp [handle_control_command, hs]) h
        | Resume =>
          rw [if_neg (by simp [handle_control_command, hs])] at h
          exact ih _ r (by simp [handle_control_command, hs]) h
        | Stop =>
          rw [if_pos (by simp [handle_control_command])] at h
          rw [Option.some_inj] at h
          subst h
          intro _
          exact ⟨rfl, rfl⟩
    | tick =>
      dsimp only at h
      exact ih s r hs h
    | inputMsg arrival =>
      cases arrival with
      | none =>
        dsimp only at h
        rw [Option.some_inj] at h
        subst h
        intro habs
        simp [hs] at habs
      | some triple =>
        obtain ⟨m, cmds, engine⟩ := triple
        dsimp only at h
        cases hib : inputBranch s m cmds engine with
        | none => rw [hib] at h; exact Option.noConfusion h
        | some br =>
          rw [hib] at h
          dsimp only at h
          rcases inputBranch_inv s m cmds engine br hs hib with
            ⟨hex, hbs, hstopd⟩ | ⟨hex, hbs⟩
          · rw [hex, if_pos rfl, Option.some_inj] at h
            subst h
            intro _
            exact ⟨hstopd, rfl⟩
          · rw [hex, if_neg Bool.false_ne_true] at h
            cases haux2 : executionLoopAux br.state rest with
            | none => rw [haux2] at h; exact Option.noConfusion h
            | some r2 =>
              rw [haux2] at h
              dsimp only at h
              rw [Option.some_inj] at h
              subst h
              intro habs
              dsimp only at habs
              exact ih br.state r2 hbs haux2 habs

/-- C5: whenever the execution loop exits, for any reason, exactly one final
    `Completed` output is appended to what the body produced, and the state
    returns to `Idle` unless a stop was requested, in which case it remains
    `Stopped`. -/
theorem loop_exit_final_completed (s0 : AgentState) (steps : List LoopStep)
    (r : LoopResult) (hs : s0.should_stop = false)
    (h : execution_loop s0 steps = some r) (hex : r.exited = true) :
    ∃ a : LoopResult,
      executionLoopAux s0 steps = some a ∧
      a.exited = true ∧
      r.outputs = a.outputs ++ [OutputMessage.new a.state.turn_count OutputData.Completed] ∧
      r.plans = a.plans ∧
      (a.state.should_stop = false →
        r.state = { a.state with execution_state := ExecutionState.Idle }) ∧
      (a.state.should_stop = true →
        r.state = a.state ∧ r.state.execution_state = ExecutionState.Stopped) := by
  unfold execution_loop at h
  cases ha : executionLoopAux s0 steps with
  | none => rw [ha] at h; exact Option.noConfusion h
  | some a =>
    rw [ha] at h
    dsimp only at h
    cases haex : a.exited with
    | false =>
      rw [haex, if_neg Bool.false_ne_true, Option.some_inj] at h
      subst h
      rw [haex] at hex
      cases hex
    | true =>
      rw [haex, if_pos rfl, Option.some_inj] at h
      subst h
      refine ⟨a, rfl, haex, rfl, rfl, ?_, ?_⟩
      · intro hss
        show (if !a.state.should_stop then
            { a.state with execution_state := ExecutionState.Idle }
          else a.state) = { a.state with execution_state := ExecutionState.Idle }
        rw [hss]
        simp
      · intro hss
        have hstopd := (executionLoopAux_stop_inv steps s0 a hs ha hss).1
        constructor
        · show (if !a.state.should_stop then
              { a.state with execution_state := ExecutionState.Idle }
            else a.state) = a.state
          rw [hss]
          simp
        · show (if !a.state.should_stop then
              { a.state with execution_state := ExecutionState.Idle }
            else a.state).execution_state = ExecutionState.Stopped
          rw [hss]
          simpa using hstopd

/-- C5 witness: closing the control channel with no input exits the loop,
    emits the final `Completed`, and returns the state to `Idle`. -/
theorem loop_exit_final_completed_witness :
    initialRunningState.should_stop = false ∧
    execution_loop initialRunningState [LoopStep.control none] = some c5Result ∧
    c5Result.exited = true ∧
    ∃ a : LoopResult,
      executionLoopAux initialRunningState [LoopStep.control none] = some a ∧
      a.exited = true ∧
      c5Result.outputs =
        a.outputs ++ [OutputMessage.new a.state.turn_count OutputData.Completed] ∧
      c5Result.plans = a.plans ∧
      (a.state.should_stop = false →
        c5Result.state = { a.state with execution_state := ExecutionState.Idle }) ∧
      (a.state.should_stop = true →
        c5Result.state = a.state ∧
        c5Result.state.execution_state = ExecutionState.Stopped) :=
  ⟨rfl, rfl, rfl,
    loop_exit_final_completed initialRunningState [LoopStep.control none] c5Result
      rfl rfl rfl⟩

/-- A script consisting of non-terminal events followed by a fetch error
    drives the event loop to completion at the error. -/
theorem scriptCompletes_error (pre : List Event) (emsg : String)
    (junk : List FetchResult) :
    scriptCompletes (pre.map Except.ok ++ Except.error emsg :: junk) = true := by
  induction pre with
  | nil => rfl
  | cons ev pre' ih =>
    rw [List.map_cons, List.cons_append]
    simp only [scriptCompletes]
    rw [ih, Bool.or_true]

/-- The inner event loop on a script that hits a fetch error: the converted
    outputs of the preceding events, then exactly the one error output, and
    nothing from behind the error. -/
theorem processEvents_fetch_error (pre : List Event) :
    ∀ (s : AgentState) (turn_id : Nat) (emsg : String) (junk : List FetchResult),
      s.should_stop = false → s.is_paused = false →
      (∀ ev ∈ pre, isTaskComplete ev.msg = false) →
      processEvents s turn_id (pre.map Except.ok ++ Except.error emsg :: junk) =
        some ((pre.map (eventOut turn_id)).flatten ++
            [OutputMessage.new turn_id (OutputData.Error (OutputError.General emsg))],
          (pre.map eventPlans).flatten) := by
  induction pre with
  | nil =>
    intro s tid emsg junk h1 h2 _
    simp [processEvents, h1, h2]
  | cons ev pre' ih =>
    intro s tid emsg junk h1 h2 hpre
    have hT : isTaskComplete ev.msg = false := hpre ev (List.mem_cons_self _ _)
    have hpre' : ∀ e ∈ pre', isTaskComplete e.msg = false :=
      fun e he => hpre e (List.mem_cons_of_mem _ he)
    rw [List.map_cons, List.cons_append]
    simp only [processEvents, h1, h2, hT, Bool.false_eq_true, if_false]
    rw [ih s tid emsg junk h1 h2 hpre']
    simp [List.append_assoc]

/-- C6: a fetch error during a turn emits exactly one `Error` output
    carrying that turn's id, ends the turn immediately (events behind the
    error are never consumed), and the loop itself continues and can process
    subsequent inputs. -/
theorem fetch_error_ends_turn (pre : List Event) (emsg : String)
    (junk : List FetchResult) (s : AgentState) (turn_id : Nat)
    (input_message : InputMessage)
    (h1 : s.should_stop = false) (h2 : s.is_paused = false)
    (hpre : ∀ ev ∈ pre, isTaskComplete ev.msg = false) :
    processEvents s turn_id (pre.map Except.ok ++ Except.error emsg :: junk) =
      some ((pre.map (eventOut turn_id)).flatten ++
          [OutputMessage.new turn_id (OutputData.Error (OutputError.General emsg))],
        (pre.map eventPlans).flatten) ∧
    ((∀ o ∈ (pre.map (eventOut turn_id)).flatten, isErrorOutput o = false) →
      List.countP isErrorOutput ((pre.map (eventOut turn_id)).flatten ++
        [OutputMessage.new turn_id (OutputData.Error (OutputError.General emsg))]) = 1) ∧
    (∃ br : BranchResult,
      inputBranch s input_message []
          (pre.map Except.ok ++ Except.error emsg :: junk) = some br ∧
      br.exit_loop = false) ∧
    (∀ p2 : InputMessage × List FetchResult, scriptCompletes p2.2 = true →
      ∃ r : LoopResult,
        executionLoopAux s
          [LoopStep.inputMsg (some (input_message, [],
             pre.map Except.ok ++ Except.error emsg :: junk)), mkInputStep p2] =
          some r ∧
        r.exited = false) := by
  obtain ⟨tr, hpm, htr, _, _⟩ := process_input_message_spec s input_message
    (pre.map Except.ok ++ Except.error emsg :: junk) h1 h2
    (scriptCompletes_error pre emsg junk)
  have hib := inputBranch_ready s input_message
    (pre.map Except.ok ++ Except.error emsg :: junk) tr h1 h2 hpm
  refine ⟨processEvents_fetch_error pre s turn_id emsg junk h1 h2 hpre, ?_, ?_, ?_⟩
  · intro hno
    rw [List.countP_append]
    have hz : List.countP isErrorOutput ((pre.map (eventOut turn_id)).flatten) = 0 := by
      refine List.countP_eq_zero.mpr ?_
      intro o ho
      simp [hno o ho]
    rw [hz]
    simp [List.countP_cons, isErrorOutput, OutputMessage.new]
  · exact ⟨_, hib, rfl⟩
  · intro p2 hp2
    have h1t : tr.state.should_stop = false := by rw [htr]; exact h1
    have h2t : tr.state.is_paused = false := by rw [htr]; exact h2
    obtain ⟨tr2, hpm2, _, _, _⟩ := process_input_message_spec tr.state p2.1 p2.2
      h1t h2t hp2
    have hib2 := inputBranch_ready tr.state p2.1 p2.2 tr2 h1t h2t hpm2
    have e2 : executionLoopAux tr.state [mkInputStep p2] =
        some { state := tr2.state
               outputs := tr2.outputs ++ []
               plans := tr2.plans ++ []
               exited := false } := by
      rw [executionLoopAux.eq_def]
      dsimp only [mkInputStep]
      rw [hib2]
      dsimp only
      rw [if_neg Bool.false_ne_true]
      simp only [executionLoopAux]
    refine ⟨{ state := tr2.state
              outputs := tr.outputs ++ (tr2.outputs ++ [])
              plans := tr.plans ++ (tr2.plans ++ [])
              exited := false }, ?_, rfl⟩
    rw [executionLoopAux.eq_def]
    dsimp only
    rw [hib]
    dsimp only
    rw [if_neg Bool.false_ne_true]
    rw [e2]

/-- C6 witness: a concrete turn that streams one delta and then hits a
    fetch error, followed by a successfully completing second turn. -/
theorem fetch_error_ends_turn_witness :
    initialRunningState.should_stop = false ∧
    initialRunningState.is_paused = false ∧
    (∀ ev ∈ c6Pre, isTaskComplete ev.msg = false) ∧
    (processEvents initialRunningState 1
        (c6Pre.map Except.ok ++ Except.error "boom" :: c6Junk) =
      some ((c6Pre.map (eventOut 1)).flatten ++
          [OutputMessage.new 1 (OutputData.Error (OutputError.General "boom"))],
        (c6Pre.map eventPlans).flatten) ∧
    ((∀ o ∈ (c6Pre.map (eventOut 1)).flatten, isErrorOutput o = false) →
      List.countP isErrorOutput ((c6Pre.map (eventOut 1)).flatten ++
        [OutputMessage.new 1 (OutputData.Error (OutputError.General "boom"))]) = 1) ∧
    (∃ br : BranchResult,
      inputBranch initialRunningState sampleInput []
          (c6Pre.map Except.ok ++ Except.error "boom" :: c6Junk) = some br ∧
      br.exit_loop = false) ∧
    (∀ p2 : InputMessage × List FetchResult, scriptCompletes p2.2 = true →
      ∃ r : LoopResult,
        executionLoopAux initialRunningState
          [LoopStep.inputMsg (some (sampleInput, [],
             c6Pre.map Except.ok ++ Except.error "boom" :: c6Junk)), mkInputStep p2] =
          some r ∧
        r.exited = false)) :=
  ⟨rfl, rfl, by decide,
    fetch_error_ends_turn c6Pre "boom" c6Junk initialRunningState 1 sampleInput
      rfl rfl (by decide)⟩

/-- C8: a plan-update engine event is not folded into the output
    vocabulary — the normalizer returns `none` for it — and is instead
    converted to a `PlanMessage` snapshot and sent on the dedicated plan
    channel, contributing nothing to the output channel. -/
theorem plan_update_on_plan_channel (args : UpdatePlanArgs) (id : String)
    (s : AgentState) (turn_id : Nat) (rest : List FetchResult)
    (h1 : s.should_stop = false) (h2 : s.is_paused = false) :
    convert_event_to_output { id := id, msg := EventMsg.PlanUpdate args } = none ∧
    eventOut turn_id { id := id, msg := EventMsg.PlanUpdate args } = [] ∧
    eventPlans { id := id, msg := EventMsg.PlanUpdate args } =
      [PlanMessage.from_update_plan_args args] ∧
    processEvents s turn_id
        (Except.ok { id := id, msg := EventMsg.PlanUpdate args } :: rest) =
      Option.map (fun r => (r.1, PlanMessage.from_update_plan_args args :: r.2))
        (processEvents s turn_id rest) := by
  refine ⟨rfl, rfl, rfl, ?_⟩
  simp only [processEvents, h1, h2, Bool.false_eq_true, if_false]
  cases hrec : processEvents s turn_id rest with
  | none => simp [eventOut, eventPlans, convert_event_to_output, isTaskComplete]
  | some r =>
    obtain ⟨os, ps⟩ := r
    simp [eventOut, eventPlans, convert_event_to_output, isTaskComplete]

/-- C8 witness: a concrete plan update inside a completing turn. -/
theorem plan_update_on_plan_channel_witness :
    initialRunningState.should_stop = false ∧
    initialRunningState.is_paused = false ∧
    (convert_event_to_output { id := "p1", msg := EventMsg.PlanUpdate samplePlanArgs } =
      none ∧
    eventOut 1 { id := "p1", msg := EventMsg.PlanUpdate samplePlanArgs } = [] ∧
    eventPlans { id := "p1", msg := EventMsg.PlanUpdate samplePlanArgs } =
      [PlanMessage.from_update_plan_args samplePlanArgs] ∧
    processEvents initialRunningState 1
        (Except.ok { id := "p1", msg := EventMsg.PlanUpdate samplePlanArgs } :: c8Rest) =
      Option.map
        (fun r => (r.1, PlanMessage.from_update_plan_args samplePlanArgs :: r.2))
        (processEvents initialRunningState 1 c8Rest)) :=
  ⟨rfl, rfl,
    plan_update_on_plan_channel samplePlanArgs "p1" initialRunningState 1 c8Rest
      rfl rfl⟩

end AgentCore
